import Mathlib

/-!
Verification of the AuthorizedPasswordRecoveryAssistant core against its
natural-language specification.

The development shallowly embeds the three core modules:
  - `src/audditLogger.js`  (hash-chained, append-only audit trail)
  - `src/vault.js`         (password-derived-key encrypted key/value store)
  - `src/approvalWorkflow.js` (M-of-N approval state machine and token minter)

Conventions of the embedding:
  - JS `Date.now()` values are passed explicitly as `now : Nat` (epoch ms).
  - JS `Map` objects are modelled as insertion-ordered association lists
    (`List (String × α)`) with `mapGet` / `mapSet` / `mapDelete` mirroring
    `Map.get` / `Map.set` / `Map.delete`.
  - Cryptographic primitives that live outside this repository (SHA-256,
    HMAC-SHA256, scrypt, AES-256-GCM) are taken as explicit function
    parameters; the structural code around them (chaining, serialization,
    slicing offsets, token assembly) is embedded concretely.
  - Fallible code returns structured result records; a raw thrown JS `Error`
    is modelled as `Except.error`.
-/

set_option maxRecDepth 4000

/-! ## Shared: association-list model of a JS `Map` (insertion ordered) -/

/-- Model of `Map.prototype.get`: the value of the first (and in the source the
only) entry whose key matches. -/
def mapGet {α : Type} (m : List (String × α)) (k : String) : Option α :=
  (m.find? (fun p => p.1 == k)).map (fun p => p.2)

/-- Model of `Map.prototype.set`: updates the entry in place if the key is
present (keeping its position), otherwise appends a new entry. -/
def mapSet {α : Type} (m : List (String × α)) (k : String) (v : α) :
    List (String × α) :=
  if m.any (fun p => p.1 == k) then
    m.map (fun p => if p.1 == k then (k, v) else p)
  else m ++ [(k, v)]

/-- Model of `Map.prototype.delete`. -/
def mapDelete {α : Type} (m : List (String × α)) (k : String) :
    List (String × α) :=
  m.filter (fun p => !(p.1 == k))

/-! ## Audit trail (`src/audditLogger.js`)

The log file is modelled as `Option (List LogRecord)`:
  - `none` is an absent file (`ENOENT`);
  - `some logs` is a present file whose lines parse to `logs` in order.
Each record is persisted as one newline-terminated JSON line; the JSON
serialization of these fixed-shape records is lossless and injective, so the
list of parsed records is a faithful model of the file content.  The one
present-file state that does not correspond to a list of parsed lines is the
zero-byte file, which is modelled by `some []`: `appendLog` never writes it
(every append writes a full line), and `queryLogs` on it follows the source,
where `''.trim().split('\n')` yields `['']` and `JSON.parse('')` throws, which
the catch-all turns into `{logs: [], isValid: false, error: 'Could not read or
parse the audit log.'}`. -/

/- The `createChecksum` helper applies the SHA-256 hex digest; the digest
itself is an external crypto primitive, so the whole module is parametrized by
it. -/
variable (createChecksum : String → String)

/-- The genesis link of the chain: GENESIS_HASH is the 64-character all-zero hex string. -/
def GENESIS_HASH : String := String.mk (List.replicate 64 '0')

/-- Caller-supplied fields of `appendLog`'s `entry` argument, as documented in
the source (`userId`, `action`, `target`, optional `reason`, `outcome`). -/
structure AuditEntry where
  userId : String
  action : String
  target : String
  reason : Option String
  outcome : String
deriving DecidableEq

/-- A persisted log record minus its `checksum` field: the shape that
`JSON.stringify` hashes (`timestamp`, spread entry fields, `previousChecksum`,
in that key order). -/
structure LogContent where
  timestamp : String
  userId : String
  action : String
  target : String
  reason : Option String
  outcome : String
  previousChecksum : String
deriving DecidableEq

/-- A full persisted log record (content plus its `checksum` field, which the
source assigns after hashing). -/
structure LogRecord where
  content : LogContent
  checksum : String
deriving DecidableEq

/-- JSON string literal for strings that need no escaping (all strings in this
development are plain ASCII identifiers, timestamps and hex digests). -/
def jsonString (s : String) : String := "\"" ++ s ++ "\""

/-- Model of `JSON.stringify(logRecord)` over the record without its
`checksum` field, with the source's fixed key order: `timestamp`, the spread
entry fields (`userId`, `action`, `target`, optional `reason`, `outcome`),
then `previousChecksum`.  An absent `reason` key is omitted entirely, exactly
as the object spread does. -/
def serializeContent (c : LogContent) : String :=
  "\x7b\"timestamp\":" ++ jsonString c.timestamp
    ++ ",\"userId\":" ++ jsonString c.userId
    ++ ",\"action\":" ++ jsonString c.action
    ++ ",\"target\":" ++ jsonString c.target
    ++ (match c.reason with
        | some r => ",\"reason\":" ++ jsonString r
        | none => "")
    ++ ",\"outcome\":" ++ jsonString c.outcome
    ++ ",\"previousChecksum\":" ++ jsonString c.previousChecksum
    ++ "\x7d"

/-- Model of `JSON.stringify(logRecord)` over the full record: the source
assigns `logRecord.checksum` after hashing, so the `checksum` key comes last.
This is exactly the content of one persisted line (the line is this string
plus the trailing newline). -/
def serializeRecord (r : LogRecord) : String :=
  (serializeContent r.content).dropRight 1
    ++ ",\"checksum\":" ++ jsonString r.checksum ++ "\x7d"

/-- Result record of `appendLog`. -/
structure AppendResult where
  success : Bool
  error : Option String
deriving DecidableEq

/-- Model of `appendLog`.  The guard models the JS truthiness check
`!entry.userId || !entry.action || !entry.target || !entry.outcome` (an empty
string is falsy; the `entry` object itself always exists in the model).  The
timestamp (`new Date().toISOString()`) is passed explicitly.

The match models `getLastLine`, which reads only the final
`min(1024, size)` bytes of the file and returns the text after the last
newline of that (trimmed) chunk:
  - for an absent or zero-byte file it returns `null` and `previousChecksum`
    is `GENESIS_HASH`;
  - otherwise the chunk's last element is the last record's full line exactly
    when that line's content fits the window together with its trailing
    newline, i.e. when `(serializeRecord r).length < 1024` (lines are ASCII
    here, so characters equal bytes).  Then `JSON.parse(lastLine).checksum`
    links the new record to it;
  - when the last line's content has 1024 bytes or more, the window holds a
    proper suffix of it; every proper suffix of the JSON line fails
    `JSON.parse` (a valid value ending in the line's closing brace must start
    with the opening brace, which only the whole line does), the throw is
    caught, and the call reports the write failure with the file untouched. -/
def appendLog (timestamp : String) (e : AuditEntry)
    (file : Option (List LogRecord)) :
    AppendResult × Option (List LogRecord) :=
  if e.userId = "" ∨ e.action = "" ∨ e.target = "" ∨ e.outcome = "" then
    (⟨false, some "Log entry is missing required fields."⟩, file)
  else
    match (file.getD []).getLast? with
    | some r =>
        if 1024 ≤ (serializeRecord r).length then
          (⟨false, some "Could not write to the audit log."⟩, file)
        else
          let content : LogContent :=
            ⟨timestamp, e.userId, e.action, e.target, e.reason, e.outcome,
              r.checksum⟩
          (⟨true, none⟩,
            some ((file.getD [])
              ++ [⟨content, createChecksum (serializeContent content)⟩]))
    | none =>
        let content : LogContent :=
          ⟨timestamp, e.userId, e.action, e.target, e.reason, e.outcome,
            GENESIS_HASH⟩
        (⟨true, none⟩,
          some ((file.getD [])
            ++ [⟨content, createChecksum (serializeContent content)⟩]))

/-- Sequential composition of `appendLog` calls, threading the file state;
each element of `inputs` supplies the wall-clock timestamp and the entry of
one call. -/
def appendAll : List (String × AuditEntry) → Option (List LogRecord) →
    Option (List LogRecord)
  | [], file => file
  | (t, e) :: rest, file =>
      appendAll rest (appendLog createChecksum t e file).2

/-- Whether every `appendLog` call of the sequence returned success — the
"N sequential successful appendLog calls" of the chain-integrity property. -/
def appendAllOk : List (String × AuditEntry) → Option (List LogRecord) → Bool
  | [], _ => true
  | (t, e) :: rest, file =>
      ((appendLog createChecksum t e file).1).success
        && appendAllOk rest (appendLog createChecksum t e file).2

/-- The integrity walk of `queryLogs`: starting from `GENESIS_HASH`, each
record's recomputed checksum must match its stored `checksum` and its
`previousChecksum` must match the previous record's checksum; the first
mismatch aborts with `false`. -/
def validateChain : String → List LogRecord → Bool
  | _, [] => true
  | prev, r :: rest =>
      if createChecksum (serializeContent r.content) = r.checksum
          ∧ r.content.previousChecksum = prev then
        validateChain r.checksum rest
      else false

/-- Model of the dynamic property read `log[key]` for the fields a persisted
record actually has; any other key is `undefined` (`none`). -/
def getField (r : LogRecord) : String → Option String
  | "timestamp" => some r.content.timestamp
  | "userId" => some r.content.userId
  | "action" => some r.content.action
  | "target" => some r.content.target
  | "reason" => r.content.reason
  | "outcome" => some r.content.outcome
  | "previousChecksum" => some r.content.previousChecksum
  | "checksum" => some r.checksum
  | _ => none

/-- Model of `Object.entries(filters).every(([key, value]) => log[key] ===
value)`: an exact-match conjunction over the provided filter fields
(`undefined` never strictly equals a provided string value). -/
def matchesFilters (filters : List (String × String)) (r : LogRecord) : Bool :=
  filters.all (fun kv => getField r kv.1 == some kv.2)

/-- Result record of `queryLogs`. -/
structure QueryResult where
  logs : List LogRecord
  isValid : Bool
  error : Option String
deriving DecidableEq

/-- Model of `queryLogs`.  An absent file (`ENOENT`) is the valid zero-entry
state.  A present zero-byte file (`some []`) follows the source's string path:
`''.trim().split('\n')` is `['']` and `JSON.parse('')` throws, so the
catch-all returns the read/parse failure.  Otherwise the whole chain is
validated from `GENESIS_HASH`; any mismatch returns zero entries and
`isValid = false`, and only a fully valid chain is filtered and returned. -/
def queryLogs (file : Option (List LogRecord))
    (filters : List (String × String)) : QueryResult :=
  match file with
  | none => ⟨[], true, none⟩
  | some logs =>
      if logs.isEmpty then
        ⟨[], false, some "Could not read or parse the audit log."⟩
      else if validateChain createChecksum GENESIS_HASH logs then
        ⟨logs.filter (matchesFilters filters), true, none⟩
      else
        ⟨[], false, some "Log tampering detected!"⟩

/-! ## Secret vault (`src/vault.js`)

The vault is an in-memory class instance: a derived key, a salt, an
`inited` flag and a key→payload map whose payloads are hex strings.  scrypt
and AES-256-GCM are external crypto primitives and are passed as function
parameters (`kdf`, `encryptFn`, `decryptFn`); the byte-level payload layout
`salt(16) ∥ iv(12) ∥ authTag(16) ∥ ciphertext`, the hex encoding and the
slicing offsets of `retrieve` are embedded concretely.  Bytes are `Fin 256`,
matching Node `Buffer` cells. -/

/-- A byte of a Node `Buffer`. -/
abbrev Byte := Fin 256

/-- Lower-case hex digit for a value below 16 (Node `Buffer.toString('hex')`
produces lower-case digits). -/
def hexDigitChar (n : Nat) : Char :=
  if n < 10 then Char.ofNat (48 + n) else Char.ofNat (87 + n)

/-- The two hex digits of one byte. -/
def hexByte (b : Byte) : List Char :=
  [hexDigitChar (b.val / 16), hexDigitChar (b.val % 16)]

/-- Model of `Buffer.prototype.toString('hex')`. -/
def hexEncode (bs : List Byte) : String := String.mk (bs.flatMap hexByte)

/-- Numeric value of one hex digit character, if it is one. -/
def hexDigitVal (c : Char) : Option Nat :=
  if 48 ≤ c.toNat ∧ c.toNat ≤ 57 then some (c.toNat - 48)
  else if 97 ≤ c.toNat ∧ c.toNat ≤ 102 then some (c.toNat - 87)
  else none

/-- Hex decoding over a character list: consumes digit pairs and, like
`Buffer.from(s, 'hex')`, stops at the first input that is not a valid digit
pair. -/
def hexDecodeChars : List Char → List Byte
  | c1 :: c2 :: rest =>
      match hexDigitVal c1, hexDigitVal c2 with
      | some h, some l =>
          if hlt : 16 * h + l < 256 then ⟨16 * h + l, hlt⟩ :: hexDecodeChars rest
          else []
      | _, _ => []
  | _ => []

/-- Model of `Buffer.from(s, 'hex')`. -/
def hexDecode (s : String) : List Byte := hexDecodeChars s.data

/-- The constant SALT_LENGTH = 16. -/
def SALT_LENGTH : Nat := 16

/-- The constant IV_LENGTH = 12. -/
def IV_LENGTH : Nat := 12

/-- The constant AUTH_TAG_LENGTH = 16. -/
def AUTH_TAG_LENGTH : Nat := 16

/-- The private state of the `Vault` class: `#derivedKey`, `#salt`, `#store`
and the `#initialized` flag (named `inited` here). -/
structure VaultState where
  derivedKey : List Byte
  salt : List Byte
  store : List (String × String)
  inited : Bool
deriving DecidableEq

/- The scrypt derivation (`scryptAsync(password, salt, 32, SCRYPT_PARAMS)`)
is an external crypto primitive, passed as `kdf`. -/
variable (kdf : String → List Byte → List Byte)

/- AES-256-GCM encryption: given key, iv and plaintext it produces
`(ciphertext, authTag)`; `none` models the cipher throwing, which `store`
catches.  Decryption verifies the tag and yields the plaintext, or `none` on
any tag/decryption error, which `retrieve` catches. -/
variable (encryptFn : List Byte → List Byte → String → Option (List Byte × List Byte))
variable (decryptFn : List Byte → List Byte → List Byte → List Byte → Option String)

/-- Model of `Vault.init`.  The source `throw`s a raw `Error` (not a
structured result) when the vault is already set up or the master password is
shorter than 12 characters; a thrown error is `Except.error`.  The fresh
random 16-byte salt (`randomBytes(SALT_LENGTH)`) is passed explicitly.  (The
`typeof masterPassword !== 'string'` half of the guard is vacuous here since
the model types the password as a string.) -/
def Vault.init (randSalt : List Byte) (masterPassword : String)
    (st : VaultState) : Except String VaultState :=
  if st.inited then
    Except.error "Vault has already been initialized."
  else if masterPassword.length < 12 then
    Except.error "Master password must be a string of at least 12 characters."
  else
    Except.ok
      { derivedKey := kdf masterPassword randSalt
        salt := randSalt
        store := st.store
        inited := true }

/-- Result record of `Vault.store`. -/
structure StoreResult where
  success : Bool
  error : Option String
deriving DecidableEq

/-- Model of `Vault.store`.  The fresh random 12-byte iv
(`randomBytes(IV_LENGTH)`) is passed explicitly.  On success the payload
`salt ∥ iv ∥ authTag ∥ ciphertext` is hex-encoded and stored under `key`,
overwriting any prior value; an encryption failure is caught and reported as
a structured error with the map untouched. -/
def Vault.store (iv : List Byte) (key value : String) (st : VaultState) :
    StoreResult × VaultState :=
  if !st.inited then
    (⟨false, some "Vault not initialized."⟩, st)
  else
    match encryptFn st.derivedKey iv value with
    | none => (⟨false, some "Failed to encrypt and store value."⟩, st)
    | some (encryptedValue, authTag) =>
        let storedPayload := hexEncode (st.salt ++ iv ++ authTag ++ encryptedValue)
        (⟨true, none⟩, { st with store := mapSet st.store key storedPayload })

/-- Result record of `Vault.retrieve`. -/
structure RetrieveResult where
  success : Bool
  data : Option String
  error : Option String
deriving DecidableEq

/-- Model of `Vault.retrieve`: looks up the hex payload, decodes it, slices
`iv = payload.slice(16, 28)`, `authTag = payload.slice(28, 44)`,
`encryptedValue = payload.slice(44)`, and decrypts; any tag mismatch or
decryption error is caught and reported with the single generic message. -/
def Vault.retrieve (key : String) (st : VaultState) :
    RetrieveResult × VaultState :=
  if !st.inited then
    (⟨false, none, some "Vault not initialized."⟩, st)
  else
    match mapGet st.store key with
    | none => (⟨false, none, some "Key not found in vault."⟩, st)
    | some payloadHex =>
        let payload := hexDecode payloadHex
        let iv := (payload.drop SALT_LENGTH).take IV_LENGTH
        let authTag := (payload.drop (SALT_LENGTH + IV_LENGTH)).take AUTH_TAG_LENGTH
        let encryptedValue := payload.drop (SALT_LENGTH + IV_LENGTH + AUTH_TAG_LENGTH)
        match decryptFn st.derivedKey iv authTag encryptedValue with
        | some decryptedValue => (⟨true, some decryptedValue, none⟩, st)
        | none =>
            (⟨false, none,
              some "Decryption failed. The data may be corrupt or the key is incorrect."⟩, st)

/-! ## Approval workflow (`src/approvalWorkflow.js`)

The module-level `pendingRequests` map is modelled as an insertion-ordered
association list `ReqMap`.  Request ids (`randomBytes(16).toString('hex')`)
are passed explicitly as `freshId`.  HMAC-SHA256 with hex digest is an
external crypto primitive, passed as `hmacHex`; the base64url encoding of the
payload and the `payload.signature` token assembly are embedded concretely. -/

/-- The hardcoded fallback value of `TOKEN_SECRET` in the source. -/
def defaultTokenSecret : String := "default-super-secret-key-for-dev-only"

/-- Model of the module initializer
`TOKEN_SECRET = process.env.APPROVAL_TOKEN_SECRET || 'default-super-secret-key-for-dev-only'`.
`none` models an unset environment variable; `some ""` is set-but-empty, which
is falsy in JS, so `||` also yields the hardcoded default.  This initializer
is the whole startup behavior of the module: it is total and never fails. -/
def TOKEN_SECRET (envSecret : Option String) : String :=
  match envSecret with
  | some s => if s = "" then defaultTokenSecret else s
  | none => defaultTokenSecret

/-- One recorded vote: `{ approverId, timestamp }`. -/
structure ApprovalVote where
  approverId : String
  timestamp : Nat
deriving DecidableEq

/-- A stored approval request.  `details` is an opaque caller payload
(modelled as a string); `status` is one of the string literals `'PENDING'`,
`'APPROVED'`, `'EXPIRED'` exactly as the source compares them. -/
structure ApprovalRequest where
  id : String
  requesterId : String
  action : String
  details : String
  status : String
  requiredApprovals : Nat
  potentialApprovers : List String
  approvals : List ApprovalVote
  createdAt : Nat
  expiresAt : Nat
deriving DecidableEq

/-- The module-level `pendingRequests` map. -/
abbrev ReqMap := List (String × ApprovalRequest)

/-- Result record of `createRequest`. -/
structure CreateResult where
  success : Bool
  requestId : Option String
  error : Option String
deriving DecidableEq

/-- Model of `createRequest`.  The guard models
`!requesterId || !action || !potentialApprovers || potentialApprovers.length < requiredApprovals`
(empty strings are falsy; a JS array is always truthy, so the
`!potentialApprovers` disjunct is vacuous for the array-typed model).
`requiredApprovals` and `ttl` default to 2 and 3600 at the call site; the
model takes their resolved values.  `expiresAt = Date.now() + ttl * 1000`. -/
def createRequest (now : Nat) (freshId : String)
    (requesterId action details : String) (requiredApprovals : Nat)
    (potentialApprovers : List String) (ttl : Nat) (st : ReqMap) :
    CreateResult × ReqMap :=
  if requesterId = "" ∨ action = "" ∨ potentialApprovers.length < requiredApprovals then
    (⟨false, none,
      some "Invalid request parameters. Ensure requester, action, and a valid set of approvers are provided."⟩,
      st)
  else
    let request : ApprovalRequest :=
      { id := freshId
        requesterId := requesterId
        action := action
        details := details
        status := "PENDING"
        requiredApprovals := requiredApprovals
        potentialApprovers := potentialApprovers
        approvals := []
        createdAt := now
        expiresAt := now + ttl * 1000 }
    (⟨true, some freshId, none⟩, mapSet st freshId request)

/-- Model of `listPendingApprovals`: requests with stored status `'PENDING'`
whose deadline has not passed at call time (`req.expiresAt > Date.now()`).
Read-only: it never changes the map. -/
def listPendingApprovals (now : Nat) (st : ReqMap) : List ApprovalRequest :=
  (st.map (fun p => p.2)).filter
    (fun req => req.status == "PENDING" && decide (now < req.expiresAt))

/-- Result record of `applyApproval`. -/
structure ApplyResult where
  success : Bool
  status : Option String
  error : Option String
deriving DecidableEq

/-- Model of `applyApproval`, branch for branch: not-found; lazy expiry
(`request.expiresAt <= Date.now()` sets the stored status to `'EXPIRED'` and
fails — note the source runs this before checking the current status);
non-PENDING status; approver not eligible; duplicate vote; otherwise the vote
is recorded and, if the vote count reaches `requiredApprovals`, the status
flips to `'APPROVED'`.  The in-place mutation of the stored request object is
modelled with `mapSet`. -/
def applyApproval (now : Nat) (requestId approverId : String) (st : ReqMap) :
    ApplyResult × ReqMap :=
  match mapGet st requestId with
  | none => (⟨false, none, some "Request not found."⟩, st)
  | some request =>
      if request.expiresAt ≤ now then
        (⟨false, none, some "Request has expired."⟩,
          mapSet st requestId { request with status := "EXPIRED" })
      else if request.status ≠ "PENDING" then
        (⟨false, none,
          some ("Request is no longer pending (status: " ++ request.status ++ ").")⟩,
          st)
      else if !(request.potentialApprovers.contains approverId) then
        (⟨false, none, some "User is not authorized to approve this request."⟩, st)
      else if request.approvals.any (fun a => a.approverId == approverId) then
        (⟨false, none, some "User has already approved this request."⟩, st)
      else
        let approvals2 := request.approvals ++ [⟨approverId, now⟩]
        let status2 :=
          if request.requiredApprovals ≤ approvals2.length then "APPROVED"
          else request.status
        (⟨true, some status2, none⟩,
          mapSet st requestId
            { request with approvals := approvals2, status := status2 })

/-- The token payload object
`{ sub: requesterId, req: requestId, act: action, exp: Date.now() + 300 * 1000 }`:
its JSON keys are the abbreviated `sub`, `req`, `act`, `exp`. -/
structure TokenPayload where
  sub : String
  req : String
  act : String
  exp : Nat
deriving DecidableEq

/-- Key/value pairs of the payload object in the source's literal order; the
values are already JSON-encoded. -/
def tokenPayloadPairs (p : TokenPayload) : List (String × String) :=
  [("sub", jsonString p.sub), ("req", jsonString p.req),
   ("act", jsonString p.act), ("exp", toString p.exp)]

/-- Comma-joined `"key":value` segments of a JSON object body. -/
def joinPairs : List (String × String) → String
  | [] => ""
  | [(k, v)] => jsonString k ++ ":" ++ v
  | (k, v) :: rest => jsonString k ++ ":" ++ v ++ "," ++ joinPairs rest

/-- Model of `JSON.stringify` of the token payload object. -/
def serializeTokenPayload (p : TokenPayload) : String :=
  "\x7b" ++ joinPairs (tokenPayloadPairs p) ++ "\x7d"

/-- UTF-8 bytes of the payload string (`Buffer.from(payload)`); all payload
characters in this development are ASCII, where UTF-8 bytes coincide with
code points. -/
def stringBytes (s : String) : List Nat := s.data.map Char.toNat

/-- The base64url alphabet. -/
def base64Chars : List Char :=
  "ABCDEFGHIJKLMNOPQRSTUVWXYZabcdefghijklmnopqrstuvwxyz0123456789-_".data

/-- Character of one 6-bit group. -/
def b64Char (n : Nat) : Char := base64Chars.getD n 'A'

/-- Model of `Buffer.prototype.toString('base64url')` (Node emits no `=`
padding for base64url). -/
def base64urlEncode : List Nat → String
  | [] => ""
  | [a] => String.mk [b64Char (a / 4), b64Char (a % 4 * 16)]
  | [a, b] =>
      String.mk [b64Char (a / 4), b64Char (a % 4 * 16 + b / 16), b64Char (b % 16 * 4)]
  | a :: b :: c :: rest =>
      String.mk [b64Char (a / 4), b64Char (a % 4 * 16 + b / 16),
        b64Char (b % 16 * 4 + c / 64), b64Char (c % 64)]
      ++ base64urlEncode rest

/- `createHmac('sha256', TOKEN_SECRET).update(payload).digest('hex')` is an
external crypto primitive: `hmacHex secret payload` is its hex digest. -/
variable (hmacHex : String → String → String)

/-- Result record of `checkApprovalStatus`. -/
structure CheckResult where
  status : String
  token : Option String
  error : Option String
deriving DecidableEq

/-- Model of `checkApprovalStatus`: not-found for an unknown (or already
consumed) id; lazy expiry guarded by `status === 'PENDING'`; if the
(possibly updated) status is `'APPROVED'`, the signed one-shot token
`base64url(payload) + '.' + hmacHexSha256(secret, payload)` is minted over the
raw payload string, the request is deleted, and the token is returned;
otherwise the current status is returned with no token. -/
def checkApprovalStatus (secret : String) (now : Nat) (requestId : String)
    (st : ReqMap) : CheckResult × ReqMap :=
  match mapGet st requestId with
  | none => (⟨"NOT_FOUND", none, some "Request not found."⟩, st)
  | some request =>
      let expired := request.expiresAt ≤ now ∧ request.status = "PENDING"
      let request2 := if expired then { request with status := "EXPIRED" } else request
      let st2 := if expired then mapSet st requestId request2 else st
      if request2.status = "APPROVED" then
        let payload := serializeTokenPayload
          ⟨request.requesterId, requestId, request.action, now + 300 * 1000⟩
        let token := base64urlEncode (stringBytes payload) ++ "." ++ hmacHex secret payload
        (⟨"APPROVED", some token, none⟩, mapDelete st2 requestId)
      else
        (⟨request2.status, none, none⟩, st2)

/-- The workflow operations an external caller can invoke, for stating
invariants over arbitrary interleavings of subsequent calls. -/
inductive WfOp where
  | create (now : Nat) (freshId requesterId action details : String)
      (requiredApprovals : Nat) (potentialApprovers : List String) (ttl : Nat)
  | listPending (now : Nat)
  | applyOp (now : Nat) (requestId approverId : String)
  | check (now : Nat) (requestId : String)
deriving DecidableEq

/-- State transition of one workflow operation. -/
def stepOp (secret : String) : WfOp → ReqMap → ReqMap
  | WfOp.create n f r a d m p t, st => (createRequest n f r a d m p t st).2
  | WfOp.listPending _, st => st
  | WfOp.applyOp n rid aid, st => (applyApproval n rid aid st).2
  | WfOp.check n rid, st => (checkApprovalStatus hmacHex secret n rid st).2

/-- State after a sequence of workflow operations. -/
def runOps (secret : String) : List WfOp → ReqMap → ReqMap
  | [], st => st
  | op :: rest, st => runOps secret rest (stepOp hmacHex secret op st)

/-- Whether an operation is `createRequest` invoked with the given fresh
request id. -/
def isCreateFor (rid : String) : WfOp → Bool
  | WfOp.create _ f _ _ _ _ _ _ => f == rid
  | _ => false

/-! ## Concrete instances used to evaluate the models at specific inputs

The crypto parameters get concrete stand-ins here so the theorems below can be
instantiated and computed at specific inputs: `hashId` is an injective
stand-in for the SHA-256 hex digest, `hmacConcat` for the HMAC hex digest, and
`kdfConst`, `encConst`, `decConst`, `encFail` for scrypt and AES-256-GCM. -/

/-- Injective stand-in for the SHA-256 hex digest. -/
def hashId : String → String := fun s => s

/-- Stand-in for the HMAC-SHA256 hex digest. -/
def hmacConcat : String → String → String := fun k m => k ++ "|" ++ m

/-- Stand-in for the scrypt key derivation. -/
def kdfConst : String → List Byte → List Byte := fun _ _ => List.replicate 32 0

/-- Cipher stand-in whose ciphertext is the plaintext code points reduced mod
256 and whose tag is 16 zero bytes. -/
def encConst : List Byte → List Byte → String → Option (List Byte × List Byte) :=
  fun _ _ v => some (v.data.map (fun c => Fin.ofNat' 256 c.toNat), List.replicate 16 0)

/-- Decipher stand-in paired with `encConst` at the single plaintext
`"hello secret"` used by the round-trip witness. -/
def decConst : List Byte → List Byte → List Byte → List Byte → Option String :=
  fun _ _ _ _ => some "hello secret"

/-- Cipher stand-in that always fails (models the cipher throwing). -/
def encFail : List Byte → List Byte → String → Option (List Byte × List Byte) :=
  fun _ _ _ => none

/-- Decipher stand-in that always fails. -/
def decFail : List Byte → List Byte → List Byte → List Byte → Option String :=
  fun _ _ _ _ => none

/-- A fresh, never-set-up vault. -/
def vault0 : VaultState := ⟨[], [], [], false⟩

/-- A vault after a successful `init`: 32-byte derived key, 16-byte salt. -/
def vault1 : VaultState :=
  ⟨List.replicate 32 0, List.replicate 16 0, [], true⟩

/-- A 12-byte iv for the round-trip witness. -/
def iv0 : List Byte := List.replicate 12 0

/-- Two valid audit entries (with their timestamps) for the chain witnesses. -/
def inputs0 : List (String × AuditEntry) :=
  [("2025-01-01T00:00:00.000Z", ⟨"alice", "LOGIN", "console", none, "SUCCESS"⟩),
   ("2025-01-01T00:00:01.000Z", ⟨"bob", "VAULT_ACCESS", "key_1", some "audit", "PENDING"⟩)]

/-- A tampered version of the first record's content (the `userId` field is
mutated, its checksum left unchanged). -/
def mutContent0 : LogContent :=
  ⟨"2025-01-01T00:00:00.000Z", "mallory", "LOGIN", "console", none, "SUCCESS",
    GENESIS_HASH⟩

/-- An approval request that has reached its threshold (status `APPROVED`)
but has not yet been consumed; its deadline is 1000 ms after epoch. -/
def reqApproved : ApprovalRequest :=
  { id := "ab12"
    requesterId := "alice"
    action := "ACCESS_VAULT_ITEM"
    details := "itemId: key_1"
    status := "APPROVED"
    requiredApprovals := 1
    potentialApprovers := ["bob"]
    approvals := [⟨"bob", 0⟩]
    createdAt := 0
    expiresAt := 1000 }

/-- A request store holding only `reqApproved`. -/
def reqMapApproved : ReqMap := [("ab12", reqApproved)]

/-- An approval request whose stored status is `EXPIRED`. -/
def reqExpired : ApprovalRequest :=
  { id := "cd34"
    requesterId := "carol"
    action := "ACCESS_VAULT_ITEM"
    details := "itemId: key_2"
    status := "EXPIRED"
    requiredApprovals := 2
    potentialApprovers := ["bob", "dave"]
    approvals := []
    createdAt := 0
    expiresAt := 500 }

/-- A request store holding only `reqExpired`. -/
def reqMapExpired : ReqMap := [("cd34", reqExpired)]

/-- The payload of the token minted from `reqApproved` at `now = 0`. -/
def payload0 : TokenPayload := ⟨"alice", "ab12", "ACCESS_VAULT_ITEM", 300000⟩

/-! ## Derived definitions used by the statements below -/

/-- The complement of `appendLog`'s required-fields guard: all four mandatory
entry fields are (JS-truthy) non-empty strings. -/
abbrev validEntry (e : AuditEntry) : Prop :=
  ¬(e.userId = "" ∨ e.action = "" ∨ e.target = "" ∨ e.outcome = "")

/-- The checksum `getLastLine` hands to the next append: the last record's
checksum, or the supplied default for an empty list. -/
def lastCk (prev : String) (logs : List LogRecord) : String :=
  match logs.getLast? with
  | some r => r.checksum
  | none => prev

/-! ## Lemmas: association-list map -/

theorem find?_map_set_of_any {α : Type} (k : String) (v : α) :
    ∀ m : List (String × α), m.any (fun p => p.1 == k) = true →
      (m.map (fun p => if p.1 == k then (k, v) else p)).find?
        (fun p => p.1 == k) = some (k, v) := by
  intro m
  induction m with
  | nil => simp
  | cons p rest ih =>
      intro hany
      cases hp : (p.1 == k) with
      | true =>
          simp only [List.map_cons, hp, if_true, List.find?_cons, beq_self_eq_true]
      | false =>
          simp only [List.any_cons, hp, Bool.false_or] at hany
          simp only [List.map_cons, hp, Bool.false_eq_true, if_false, List.find?_cons]
          exact ih hany

theorem mapGet_set_self {α : Type} (m : List (String × α)) (k : String) (v : α) :
    mapGet (mapSet m k v) k = some v := by
  unfold mapSet mapGet
  by_cases hany : m.any (fun p => p.1 == k) = true
  · rw [if_pos hany, find?_map_set_of_any k v m hany]
    rfl
  · rw [if_neg hany, List.find?_append]
    have hnone : m.find? (fun p => p.1 == k) = none := by
      rw [List.find?_eq_none]
      intro x hx hpx
      exact hany (List.any_eq_true.mpr ⟨x, hx, hpx⟩)
    rw [hnone]
    simp only [Option.none_or, List.find?_cons, beq_self_eq_true]
    rfl

theorem find?_map_set_ne {α : Type} (k k2 : String) (v : α) (h : k2 ≠ k) :
    ∀ m : List (String × α),
      (m.map (fun p => if p.1 == k then (k, v) else p)).find? (fun p => p.1 == k2)
        = m.find? (fun p => p.1 == k2) := by
  have hkk2 : (k == k2) = false := by
    simp only [beq_eq_false_iff_ne, ne_eq]
    exact fun hkk => h hkk.symm
  intro m
  induction m with
  | nil => rfl
  | cons p rest ih =>
      cases hp : (p.1 == k) with
      | true =>
          have hp2 : (p.1 == k2) = false := by
            simp only [beq_iff_eq] at hp
            simp only [beq_eq_false_iff_ne, ne_eq, hp]
            exact fun hkk => h hkk.symm
          simp only [List.map_cons, hp, if_true, List.find?_cons, hkk2, hp2, ih]
      | false =>
          cases hp2 : (p.1 == k2) with
          | true =>
              simp only [List.map_cons, hp, Bool.false_eq_true, if_false,
                List.find?_cons, hp2]
          | false =>
              simp only [List.map_cons, hp, Bool.false_eq_true, if_false,
                List.find?_cons, hp2, ih]

theorem mapGet_set_ne {α : Type} (m : List (String × α)) (k k2 : String) (v : α)
    (h : k2 ≠ k) : mapGet (mapSet m k v) k2 = mapGet m k2 := by
  have hkk2 : (k == k2) = false := by
    simp only [beq_eq_false_iff_ne, ne_eq]
    exact fun hkk => h hkk.symm
  unfold mapSet mapGet
  by_cases hany : m.any (fun p => p.1 == k) = true
  · rw [if_pos hany, find?_map_set_ne k k2 v h m]
  · rw [if_neg hany, List.find?_append]
    cases hfind : m.find? (fun p => p.1 == k2) with
    | some p => simp
    | none => simp [List.find?_cons, hkk2]

theorem mapGet_delete_self {α : Type} (m : List (String × α)) (k : String) :
    mapGet (mapDelete m k) k = none := by
  unfold mapDelete mapGet
  rw [List.find?_eq_none.mpr]
  · rfl
  · intro x hx
    have := (List.mem_filter.mp hx).2
    simp only [Bool.not_eq_true'] at this
    simp [this]

theorem mapGet_delete_ne {α : Type} (m : List (String × α)) (k k2 : String)
    (h : k2 ≠ k) : mapGet (mapDelete m k) k2 = mapGet m k2 := by
  unfold mapDelete mapGet
  congr 1
  induction m with
  | nil => rfl
  | cons p rest ih =>
      cases hp : (p.1 == k) with
      | true =>
          have hp2 : (p.1 == k2) = false := by
            simp only [beq_iff_eq] at hp
            simp only [beq_eq_false_iff_ne, ne_eq, hp]
            exact fun hkk => h hkk.symm
          simp only [List.filter_cons, hp, Bool.not_true, Bool.false_eq_true,
            if_false, List.find?_cons, hp2, ih]
      | false =>
          cases hp2 : (p.1 == k2) with
          | true =>
              simp only [List.filter_cons, hp, Bool.not_false, if_true,
                List.find?_cons, hp2]
          | false =>
              simp only [List.filter_cons, hp, Bool.not_false, if_true,
                List.find?_cons, hp2, ih]

theorem mapGet_set_isSome {α : Type} (m : List (String × α)) (k k2 : String)
    (v : α) (h : mapGet m k2 ≠ none) : mapGet (mapSet m k v) k2 ≠ none := by
  by_cases hk : k2 = k
  · subst hk
    rw [mapGet_set_self]
    exact Option.some_ne_none v
  · rw [mapGet_set_ne m k k2 v hk]
    exact h

/-! ## Lemmas: audit hash chain -/

theorem lastCk_cons (prev : String) (r : LogRecord) (logs : List LogRecord) :
    lastCk prev (r :: logs) = lastCk r.checksum logs := by
  cases logs with
  | nil => rfl
  | cons r2 rest =>
      cases hl : (r2 :: rest).getLast? with
      | none => exact absurd hl (by simp)
      | some x => simp [lastCk, List.getLast?_cons_cons, hl]

theorem validateChain_append (cc : String → String) (c : LogContent) :
    ∀ (logs : List LogRecord) (prev : String),
      validateChain cc prev logs = true →
      c.previousChecksum = lastCk prev logs →
      validateChain cc prev (logs ++ [⟨c, cc (serializeContent c)⟩]) = true := by
  intro logs
  induction logs with
  | nil =>
      intro prev _ hprev
      simp only [lastCk] at hprev
      simp [validateChain, hprev]
  | cons r rest ih =>
      intro prev hvalid hprev
      simp only [validateChain] at hvalid
      by_cases hcond : cc (serializeContent r.content) = r.checksum
          ∧ r.content.previousChecksum = prev
      · rw [if_pos hcond] at hvalid
        simp only [List.cons_append, validateChain]
        rw [if_pos hcond]
        exact ih r.checksum hvalid (by rw [hprev, lastCk_cons])
      · rw [if_neg hcond] at hvalid
        exact absurd hvalid (by simp)

theorem appendLog_long_line (cc : String → String) (t : String)
    (e : AuditEntry) (file : Option (List LogRecord)) (r : LogRecord)
    (hvalid : validEntry e) (hlast : (file.getD []).getLast? = some r)
    (hlong : 1024 ≤ (serializeRecord r).length) :
    appendLog cc t e file
      = (⟨false, some "Could not write to the audit log."⟩, file) := by
  simp only [appendLog, if_neg hvalid, hlast, if_pos hlong]

theorem appendLog_ok_step (cc : String → String) (t : String) (e : AuditEntry)
    (file : Option (List LogRecord))
    (hok : ((appendLog cc t e file).1).success = true)
    (hchain : validateChain cc GENESIS_HASH (file.getD []) = true) :
    validateChain cc GENESIS_HASH (((appendLog cc t e file).2).getD []) = true
    ∧ (((appendLog cc t e file).2).getD []).length = (file.getD []).length + 1 := by
  by_cases hbad : e.userId = "" ∨ e.action = "" ∨ e.target = "" ∨ e.outcome = ""
  · simp [appendLog, if_pos hbad] at hok
  · cases hlast : (file.getD []).getLast? with
    | none =>
        simp only [appendLog, if_neg hbad, hlast]
        refine ⟨?_, by simp⟩
        simp only [Option.getD_some]
        exact validateChain_append cc _ (file.getD []) GENESIS_HASH hchain
          (by simp [lastCk, hlast])
    | some r =>
        by_cases hlong : 1024 ≤ (serializeRecord r).length
        · simp [appendLog, if_neg hbad, hlast, if_pos hlong] at hok
        · simp only [appendLog, if_neg hbad, hlast, if_neg hlong]
          refine ⟨?_, by simp⟩
          simp only [Option.getD_some]
          exact validateChain_append cc _ (file.getD []) GENESIS_HASH hchain
            (by simp [lastCk, hlast])

theorem appendAll_chain (cc : String → String) :
    ∀ (inputs : List (String × AuditEntry)) (file : Option (List LogRecord)),
      appendAllOk cc inputs file = true →
      validateChain cc GENESIS_HASH (file.getD []) = true →
      validateChain cc GENESIS_HASH ((appendAll cc inputs file).getD []) = true
      ∧ ((appendAll cc inputs file).getD []).length
          = (file.getD []).length + inputs.length := by
  intro inputs
  induction inputs with
  | nil =>
      intro file _ hchain
      exact ⟨hchain, by simp [appendAll]⟩
  | cons p rest ih =>
      intro file hok hchain
      obtain ⟨t, e⟩ := p
      simp only [appendAllOk, Bool.and_eq_true] at hok
      have hstep := appendLog_ok_step cc t e file hok.1 hchain
      have hrec := ih (appendLog cc t e file).2 hok.2 hstep.1
      simp only [appendAll]
      refine ⟨hrec.1, ?_⟩
      rw [hrec.2, hstep.2]
      simp only [List.length_cons]
      omega

theorem validateChain_set_false (cc : String → String) (c2 : LogContent) :
    ∀ (logs : List LogRecord) (i : Nat) (r : LogRecord) (prev : String),
      validateChain cc prev logs = true →
      logs[i]? = some r →
      cc (serializeContent c2) ≠ r.checksum →
      validateChain cc prev (logs.set i ⟨c2, r.checksum⟩) = false := by
  intro logs
  induction logs with
  | nil => intro i r prev _ hget; simp at hget
  | cons hd tl ih =>
      intro i r prev hvalid hget hne
      simp only [validateChain] at hvalid
      by_cases hcond : cc (serializeContent hd.content) = hd.checksum
          ∧ hd.content.previousChecksum = prev
      · rw [if_pos hcond] at hvalid
        cases i with
        | zero =>
            have hr : hd = r := by simpa using hget
            subst hr
            simp only [List.set_cons_zero, validateChain]
            rw [if_neg (fun hc => hne hc.1)]
        | succ j =>
            have hget2 : tl[j]? = some r := by simpa using hget
            simp only [List.set_cons_succ, validateChain]
            rw [if_pos hcond]
            exact ih j r hd.checksum hvalid hget2 hne
      · rw [if_neg hcond] at hvalid
        exact absurd hvalid (by simp)

/-! ## Lemmas: hex codec and payload slicing -/

theorem hexDigitVal_hexDigitChar : ∀ n : Fin 16,
    hexDigitVal (hexDigitChar n.val) = some n.val := by decide

theorem hexDecodeChars_hexByte (b : Byte) (rest : List Char) :
    hexDecodeChars (hexByte b ++ rest) = b :: hexDecodeChars rest := by
  have hhi : b.val / 16 < 16 := by omega
  have hlo : b.val % 16 < 16 := by omega
  have h1 := hexDigitVal_hexDigitChar ⟨b.val / 16, hhi⟩
  have h2 := hexDigitVal_hexDigitChar ⟨b.val % 16, hlo⟩
  simp only [hexByte, List.cons_append, List.nil_append, hexDecodeChars, h1, h2]
  have hval : 16 * (b.val / 16) + b.val % 16 = b.val := by omega
  have hlt : 16 * (b.val / 16) + b.val % 16 < 256 := by omega
  rw [dif_pos hlt]
  congr 1
  exact Fin.ext hval

theorem hexDecode_hexEncode : ∀ bs : List Byte, hexDecode (hexEncode bs) = bs := by
  intro bs
  induction bs with
  | nil => rfl
  | cons b rest ih =>
      show hexDecodeChars (String.mk ((b :: rest).flatMap hexByte)).data = b :: rest
      simp only [List.flatMap_cons]
      show hexDecodeChars (hexByte b ++ rest.flatMap hexByte) = b :: rest
      rw [hexDecodeChars_hexByte]
      exact congrArg (List.cons b) ih

theorem payload_slices (salt iv tag ct : List Byte)
    (hsalt : salt.length = 16) (hiv : iv.length = 12) (htag : tag.length = 16) :
    ((salt ++ iv ++ tag ++ ct).drop SALT_LENGTH).take IV_LENGTH = iv
    ∧ ((salt ++ iv ++ tag ++ ct).drop (SALT_LENGTH + IV_LENGTH)).take AUTH_TAG_LENGTH = tag
    ∧ (salt ++ iv ++ tag ++ ct).drop (SALT_LENGTH + IV_LENGTH + AUTH_TAG_LENGTH) = ct := by
  have h2 : (salt ++ iv).length = SALT_LENGTH + IV_LENGTH := by
    simp [SALT_LENGTH, IV_LENGTH, hsalt, hiv]
  have h3 : (salt ++ iv ++ tag).length = SALT_LENGTH + IV_LENGTH + AUTH_TAG_LENGTH := by
    simp [SALT_LENGTH, IV_LENGTH, AUTH_TAG_LENGTH, hsalt, hiv, htag]
  have hsalt2 : salt.length = SALT_LENGTH := by simp [SALT_LENGTH, hsalt]
  have hiv2 : iv.length = IV_LENGTH := by simp [IV_LENGTH, hiv]
  have htag2 : tag.length = AUTH_TAG_LENGTH := by simp [AUTH_TAG_LENGTH, htag]
  refine ⟨?_, ?_, ?_⟩
  · rw [show salt ++ iv ++ tag ++ ct = salt ++ (iv ++ (tag ++ ct)) by
        simp [List.append_assoc]]
    rw [List.drop_left' hsalt2, List.take_left' hiv2]
  · rw [show salt ++ iv ++ tag ++ ct = (salt ++ iv) ++ (tag ++ ct) by
        simp [List.append_assoc]]
    rw [List.drop_left' h2, List.take_left' htag2]
  · rw [show salt ++ iv ++ tag ++ ct = (salt ++ iv ++ tag) ++ ct by
        simp [List.append_assoc]]
    rw [List.drop_left' h3]

/-! ## Lemmas: approval workflow -/

theorem expired_update_self (r : ApprovalRequest) (h : r.status = "EXPIRED") :
    { r with status := "EXPIRED" } = r := by
  cases r
  simp only at h
  subst h
  rfl

theorem createRequest_get_other (n : Nat) (f rq a d : String) (m : Nat)
    (pa : List String) (ttl : Nat) (st : ReqMap) (id : String) (h : id ≠ f) :
    mapGet ((createRequest n f rq a d m pa ttl st).2) id = mapGet st id := by
  unfold createRequest
  by_cases hc : rq = "" ∨ a = "" ∨ pa.length < m
  · rw [if_pos hc]
  · rw [if_neg hc]
    exact mapGet_set_ne st f id _ h

theorem applyApproval_get_other (n : Nat) (rid aid id : String) (st : ReqMap)
    (h : id ≠ rid) :
    mapGet ((applyApproval n rid aid st).2) id = mapGet st id := by
  cases hget : mapGet st rid with
  | none => simp only [applyApproval, hget]
  | some q =>
      by_cases h1 : q.expiresAt ≤ n
      · simp only [applyApproval, hget, if_pos h1]
        exact mapGet_set_ne st rid id _ h
      · by_cases h2 : q.status ≠ "PENDING"
        · simp only [applyApproval, hget, if_neg h1, if_pos h2]
        · by_cases h3 : (!(q.potentialApprovers.contains aid)) = true
          · simp only [applyApproval, hget, if_neg h1, if_neg h2, if_pos h3]
          · by_cases h4 : (q.approvals.any fun a2 => a2.approverId == aid) = true
            · simp only [applyApproval, hget, if_neg h1, if_neg h2, if_neg h3,
                if_pos h4]
            · simp only [applyApproval, hget, if_neg h1, if_neg h2, if_neg h3,
                if_neg h4]
              exact mapGet_set_ne st rid id _ h

theorem checkApprovalStatus_get_other (hm : String → String → String)
    (secret : String) (n : Nat) (rid id : String) (st : ReqMap) (h : id ≠ rid) :
    mapGet ((checkApprovalStatus hm secret n rid st).2) id = mapGet st id := by
  cases hget : mapGet st rid with
  | none => simp only [checkApprovalStatus, hget]
  | some q =>
      by_cases hexp : q.expiresAt ≤ n ∧ q.status = "PENDING"
      · simp only [checkApprovalStatus, hget, if_pos hexp]
        have hns : ¬(({ q with status := "EXPIRED" } : ApprovalRequest).status
            = "APPROVED") := fun hc => absurd hc (by exact (by decide : ¬("EXPIRED" = "APPROVED")))
        rw [if_neg hns]
        rw [mapGet_set_ne st rid id _ h]
      · simp only [checkApprovalStatus, hget, if_neg hexp]
        by_cases happ : q.status = "APPROVED"
        · rw [if_pos happ, mapGet_delete_ne st rid id h]
        · rw [if_neg happ]

theorem checkApprovalStatus_notfound (hm : String → String → String)
    (secret : String) (n : Nat) (id : String) (st : ReqMap)
    (hget : mapGet st id = none) :
    checkApprovalStatus hm secret n id st
      = (⟨"NOT_FOUND", none, some "Request not found."⟩, st) := by
  simp only [checkApprovalStatus, hget]

theorem checkApprovalStatus_approved (hm : String → String → String)
    (secret : String) (n : Nat) (id : String) (st : ReqMap)
    (r : ApprovalRequest) (hget : mapGet st id = some r)
    (hst : r.status = "APPROVED") :
    checkApprovalStatus hm secret n id st
      = (⟨"APPROVED",
          some (base64urlEncode (stringBytes (serializeTokenPayload
              ⟨r.requesterId, id, r.action, n + 300 * 1000⟩)) ++ "."
            ++ hm secret (serializeTokenPayload
              ⟨r.requesterId, id, r.action, n + 300 * 1000⟩)),
          none⟩, mapDelete st id) := by
  have hexp : ¬(r.expiresAt ≤ n ∧ r.status = "PENDING") := by
    rintro ⟨_, hp⟩
    rw [hst] at hp
    exact absurd hp (by decide)
  simp only [checkApprovalStatus, hget, if_neg hexp, if_pos hst]

theorem checkApprovalStatus_expired (hm : String → String → String)
    (secret : String) (n : Nat) (id : String) (st : ReqMap)
    (r : ApprovalRequest) (hget : mapGet st id = some r)
    (hst : r.status = "EXPIRED") :
    checkApprovalStatus hm secret n id st = (⟨"EXPIRED", none, none⟩, st) := by
  have hexp : ¬(r.expiresAt ≤ n ∧ r.status = "PENDING") := by
    rintro ⟨_, hp⟩
    rw [hst] at hp
    exact absurd hp (by decide)
  have happ : ¬(r.status = "APPROVED") := by
    rw [hst]
    decide
  simp only [checkApprovalStatus, hget, if_neg hexp, if_neg happ]
  rw [hst]

theorem applyApproval_late (n : Nat) (id aid : String) (st : ReqMap)
    (r : ApprovalRequest) (hget : mapGet st id = some r)
    (hlate : r.expiresAt ≤ n) :
    applyApproval n id aid st
      = (⟨false, none, some "Request has expired."⟩,
          mapSet st id { r with status := "EXPIRED" }) := by
  simp only [applyApproval, hget, if_pos hlate]

theorem applyApproval_nonpending (n : Nat) (id aid : String) (st : ReqMap)
    (r : ApprovalRequest) (hget : mapGet st id = some r)
    (hearly : ¬(r.expiresAt ≤ n)) (hnp : r.status ≠ "PENDING") :
    applyApproval n id aid st
      = (⟨false, none,
          some ("Request is no longer pending (status: " ++ r.status ++ ").")⟩,
          st) := by
  simp only [applyApproval, hget, if_neg hearly, if_pos hnp]

theorem stepOp_get_none (hm : String → String → String) (secret : String)
    (op : WfOp) (id : String) (st : ReqMap) (hnone : mapGet st id = none)
    (hop : isCreateFor id op = false) :
    mapGet (stepOp hm secret op st) id = none := by
  cases op with
  | create n f rq a d m pa ttl =>
      have hne : id ≠ f := by
        simp only [isCreateFor, beq_eq_false_iff_ne, ne_eq] at hop
        exact fun hid => hop hid.symm
      rw [stepOp, createRequest_get_other n f rq a d m pa ttl st id hne]
      exact hnone
  | listPending n => exact hnone
  | applyOp n rid aid =>
      by_cases hrid : id = rid
      · subst hrid
        rw [stepOp]
        simp only [applyApproval, hnone]
      · rw [stepOp, applyApproval_get_other n rid aid id st hrid]
        exact hnone
  | check n rid =>
      by_cases hrid : id = rid
      · subst hrid
        rw [stepOp, (checkApprovalStatus_notfound hm secret n id st hnone ▸ rfl :
            (checkApprovalStatus hm secret n id st).2 = st)]
        exact hnone
      · rw [stepOp, checkApprovalStatus_get_other hm secret n rid id st hrid]
        exact hnone

theorem runOps_get_none (hm : String → String → String) (secret : String) :
    ∀ (ops : List WfOp) (st : ReqMap) (id : String),
      mapGet st id = none →
      (ops.all fun op => !(isCreateFor id op)) = true →
      mapGet (runOps hm secret ops st) id = none := by
  intro ops
  induction ops with
  | nil => intro st id hnone _; exact hnone
  | cons op rest ih =>
      intro st id hnone hall
      simp only [List.all_cons, Bool.and_eq_true, Bool.not_eq_true'] at hall
      rw [runOps]
      exact ih _ id (stepOp_get_none hm secret op id st hnone hall.1)
        (by simpa [List.all_eq_true, Bool.not_eq_true'] using hall.2)

theorem stepOp_get_expired (hm : String → String → String) (secret : String)
    (op : WfOp) (id : String) (st : ReqMap) (r : ApprovalRequest)
    (hget : mapGet st id = some r) (hst : r.status = "EXPIRED")
    (hop : isCreateFor id op = false) :
    mapGet (stepOp hm secret op st) id = some r := by
  cases op with
  | create n f rq a d m pa ttl =>
      have hne : id ≠ f := by
        simp only [isCreateFor, beq_eq_false_iff_ne, ne_eq] at hop
        exact fun hid => hop hid.symm
      rw [stepOp, createRequest_get_other n f rq a d m pa ttl st id hne]
      exact hget
  | listPending n => exact hget
  | applyOp n rid aid =>
      by_cases hrid : id = rid
      · subst hrid
        by_cases hlate : r.expiresAt ≤ n
        · rw [stepOp, (congrArg Prod.snd (applyApproval_late n id aid st r hget hlate))]
          rw [expired_update_self r hst]
          exact mapGet_set_self st id r
        · have hnp : r.status ≠ "PENDING" := by
            rw [hst]
            decide
          rw [stepOp,
            (congrArg Prod.snd (applyApproval_nonpending n id aid st r hget hlate hnp))]
          exact hget
      · rw [stepOp, applyApproval_get_other n rid aid id st hrid]
        exact hget
  | check n rid =>
      by_cases hrid : id = rid
      · subst hrid
        rw [stepOp,
          (congrArg Prod.snd (checkApprovalStatus_expired hm secret n id st r hget hst))]
        exact hget
      · rw [stepOp, checkApprovalStatus_get_other hm secret n rid id st hrid]
        exact hget

theorem runOps_get_expired (hm : String → String → String) (secret : String) :
    ∀ (ops : List WfOp) (st : ReqMap) (id : String) (r : ApprovalRequest),
      mapGet st id = some r → r.status = "EXPIRED" →
      (ops.all fun op => !(isCreateFor id op)) = true →
      mapGet (runOps hm secret ops st) id = some r := by
  intro ops
  induction ops with
  | nil => intro st id r hget _ _; exact hget
  | cons op rest ih =>
      intro st id r hget hst hall
      simp only [List.all_cons, Bool.and_eq_true, Bool.not_eq_true'] at hall
      rw [runOps]
      exact ih _ id r (stepOp_get_expired hm secret op id st r hget hst hall.1) hst
        (by simpa [List.all_eq_true, Bool.not_eq_true'] using hall.2)

theorem applyApproval_get_isSome (n : Nat) (rid aid id : String) (st : ReqMap)
    (hsome : mapGet st id ≠ none) :
    mapGet ((applyApproval n rid aid st).2) id ≠ none := by
  by_cases hrid : id = rid
  · subst hrid
    cases hget : mapGet st id with
    | none => exact absurd hget hsome
    | some q =>
        by_cases h1 : q.expiresAt ≤ n
        · rw [(congrArg Prod.snd (applyApproval_late n id aid st q hget h1))]
          exact mapGet_set_isSome st id id _ hsome
        · by_cases h2 : q.status ≠ "PENDING"
          · rw [(congrArg Prod.snd (applyApproval_nonpending n id aid st q hget h1 h2))]
            exact hsome
          · by_cases h3 : (!(q.potentialApprovers.contains aid)) = true
            · simp only [applyApproval, hget, if_neg h1, if_neg h2, if_pos h3]
              exact Option.some_ne_none q
            · by_cases h4 : (q.approvals.any fun a2 => a2.approverId == aid) = true
              · simp only [applyApproval, hget, if_neg h1, if_neg h2, if_neg h3,
                  if_pos h4]
                exact Option.some_ne_none q
              · simp only [applyApproval, hget, if_neg h1, if_neg h2, if_neg h3,
                  if_neg h4]
                exact mapGet_set_isSome st id id _ hsome
  · rw [applyApproval_get_other n rid aid id st hrid]
    exact hsome

theorem stepOp_delete_only_check (hm : String → String → String)
    (secret : String) (op : WfOp) (id : String) (st : ReqMap)
    (hsome : mapGet st id ≠ none)
    (hdel : mapGet (stepOp hm secret op st) id = none) :
    ∃ n2, op = WfOp.check n2 id
      ∧ (checkApprovalStatus hm secret n2 id st).1.status = "APPROVED"
      ∧ ((checkApprovalStatus hm secret n2 id st).1.token).isSome = true := by
  cases op with
  | create n f rq a d m pa ttl =>
      exfalso
      rw [stepOp] at hdel
      unfold createRequest at hdel
      by_cases hc : rq = "" ∨ a = "" ∨ pa.length < m
      · rw [if_pos hc] at hdel
        exact hsome hdel
      · rw [if_neg hc] at hdel
        exact mapGet_set_isSome st f id _ hsome hdel
  | listPending n =>
      exact absurd hdel hsome
  | applyOp n rid aid =>
      exact absurd hdel (applyApproval_get_isSome n rid aid id st hsome)
  | check n rid =>
      by_cases hrid : id = rid
      · subst hrid
        cases hget : mapGet st id with
        | none => exact absurd hget hsome
        | some q =>
            by_cases hexp : q.expiresAt ≤ n ∧ q.status = "PENDING"
            · exfalso
              rw [stepOp] at hdel
              simp only [checkApprovalStatus, hget, if_pos hexp] at hdel
              have hns : ¬(({ q with status := "EXPIRED" } : ApprovalRequest).status
                  = "APPROVED") :=
                fun hc => absurd hc (by exact (by decide : ¬("EXPIRED" = "APPROVED")))
              rw [if_neg hns] at hdel
              exact mapGet_set_isSome st id id _ hsome hdel
            · by_cases happ : q.status = "APPROVED"
              · refine ⟨n, rfl, ?_, ?_⟩
                · rw [checkApprovalStatus_approved hm secret n id st q hget happ]
                · rw [checkApprovalStatus_approved hm secret n id st q hget happ]
                  rfl
              · exfalso
                rw [stepOp] at hdel
                simp only [checkApprovalStatus, hget, if_neg hexp, if_neg happ] at hdel
                exact Option.noConfusion hdel
      · exfalso
        rw [stepOp, checkApprovalStatus_get_other hm secret n rid id st hrid] at hdel
        exact hsome hdel

/-! ## Claim theorems -/

/-- C1: the claim says a missing (or default-valued) signing secret makes the
approval-workflow component fail to start with a fatal configuration error and
that it never silently falls back to a hardcoded default.  The source does the
opposite: its module initializer is total (there is no failure path at all)
and, evaluated at the failing inputs — `APPROVAL_TOKEN_SECRET` unset (`none`)
or set to the falsy empty string — it silently assigns the hardcoded
`'default-super-secret-key-for-dev-only'` and the module starts normally.
This theorem evaluates the embedded initializer at those inputs. -/
theorem c1_secret_silent_fallback :
    TOKEN_SECRET none = "default-super-secret-key-for-dev-only"
    ∧ TOKEN_SECRET (some "") = "default-super-secret-key-for-dev-only"
    ∧ TOKEN_SECRET none = defaultTokenSecret := ⟨rfl, rfl, rfl⟩

/-- C2 counterexample: the claim says no subsequent operation ever moves an
APPROVED request to EXPIRED.  Concretely: create a 1-of-1 request with a 1 s
ttl, let approver A approve it at t=0 (status APPROVED), then let a second
caller invoke `applyApproval` at t=2000 ms, past the deadline —
`applyApproval` runs its lazy-expiry branch before looking at the current
status and overwrites APPROVED with EXPIRED. -/
theorem c2_counterexample :
    (mapGet ((applyApproval 0 "r1" "A"
        ((createRequest 0 "r1" "u" "ACT" "d" 1 ["A"] 1 []).2)).2) "r1").map
          ApprovalRequest.status = some "APPROVED"
    ∧ (mapGet ((applyApproval 2000 "r1" "B"
        ((applyApproval 0 "r1" "A"
          ((createRequest 0 "r1" "u" "ACT" "d" 1 ["A"] 1 []).2)).2)).2) "r1").map
            ApprovalRequest.status = some "EXPIRED" := by
  constructor <;> decide

/-- C2 (amended): for a stored request with status APPROVED,
`listPendingApprovals` never changes the store; `checkApprovalStatus` and
`applyApproval` on other ids leave the request untouched; `checkApprovalStatus`
on its id returns APPROVED with a token and deletes the request (the only
permitted state change); `applyApproval` on its id before the `expiresAt`
deadline fails and leaves it APPROVED; but — the correction forced by the
counterexample — `applyApproval` on its id at or after `expiresAt` overwrites
the status with EXPIRED. -/
theorem c2_approved_terminal_amended (hm : String → String → String)
    (secret : String) (st : ReqMap) (id : String) (r : ApprovalRequest)
    (hget : mapGet st id = some r) (hst : r.status = "APPROVED") :
    (∀ n, stepOp hm secret (WfOp.listPending n) st = st)
    ∧ (∀ n id2, id2 ≠ id →
        mapGet ((checkApprovalStatus hm secret n id2 st).2) id = some r)
    ∧ (∀ n, (checkApprovalStatus hm secret n id st).1.status = "APPROVED"
        ∧ ((checkApprovalStatus hm secret n id st).1.token).isSome = true
        ∧ mapGet ((checkApprovalStatus hm secret n id st).2) id = none)
    ∧ (∀ n id2 aid, id2 ≠ id →
        mapGet ((applyApproval n id2 aid st).2) id = some r)
    ∧ (∀ n aid, n < r.expiresAt →
        (applyApproval n id aid st).1.success = false
        ∧ mapGet ((applyApproval n id aid st).2) id = some r)
    ∧ (∀ n aid, r.expiresAt ≤ n →
        mapGet ((applyApproval n id aid st).2) id
          = some { r with status := "EXPIRED" }) := by
  refine ⟨fun n => rfl, ?_, ?_, ?_, ?_, ?_⟩
  · intro n id2 hne
    rw [checkApprovalStatus_get_other hm secret n id2 id st (Ne.symm hne)]
    exact hget
  · intro n
    rw [checkApprovalStatus_approved hm secret n id st r hget hst]
    exact ⟨rfl, rfl, mapGet_delete_self st id⟩
  · intro n id2 aid hne
    rw [applyApproval_get_other n id2 aid id st (Ne.symm hne)]
    exact hget
  · intro n aid hearly
    have hnle : ¬(r.expiresAt ≤ n) := by omega
    have hnp : r.status ≠ "PENDING" := by
      rw [hst]
      decide
    rw [applyApproval_nonpending n id aid st r hget hnle hnp]
    exact ⟨rfl, hget⟩
  · intro n aid hlate
    rw [(congrArg Prod.snd (applyApproval_late n id aid st r hget hlate))]
    exact mapGet_set_self st id _

/-- C2 witness: the amended theorem instantiated on the concrete APPROVED
request `reqApproved` at t=5 ms (before its 1000 ms deadline). -/
theorem c2_witness :
    (checkApprovalStatus hmacConcat "sec" 5 "ab12" reqMapApproved).1.status
        = "APPROVED"
    ∧ mapGet ((checkApprovalStatus hmacConcat "sec" 5 "ab12" reqMapApproved).2)
        "ab12" = none
    ∧ (applyApproval 5 "ab12" "dave" reqMapApproved).1.success = false
    ∧ mapGet ((applyApproval 5 "ab12" "dave" reqMapApproved).2) "ab12"
        = some reqApproved := by
  have h := c2_approved_terminal_amended hmacConcat "sec" reqMapApproved "ab12"
    reqApproved (by decide) rfl
  exact ⟨(h.2.2.1 5).1, (h.2.2.1 5).2.2,
    (h.2.2.2.2.1 5 "dave" (by decide)).1, (h.2.2.2.2.1 5 "dave" (by decide)).2⟩

/-- C5 counterexample: the claim says an existing but zero-byte log file
queries as a valid zero-entry state.  In the source, reading the empty file
yields `''`, `''.trim().split('\n')` is `['']`, and `JSON.parse('')` throws,
so the catch-all reports `isValid: false` with a read/parse error — not
`isValid: true`. -/
theorem c5_counterexample :
    queryLogs hashId (some []) []
      = ⟨[], false, some "Could not read or parse the audit log."⟩
    ∧ ¬((queryLogs hashId (some []) []).isValid = true) := ⟨rfl, by decide⟩

/-- C5 (amended): `queryLogs` on an absent log file returns zero entries with
`isValid = true`; `queryLogs` on an existing but zero-byte log file returns
zero entries but with `isValid = false` and a read/parse error (the empty
line produced by `''.trim().split('\n')` fails `JSON.parse`). -/
theorem c5_absent_vs_empty (cc : String → String)
    (filters : List (String × String)) :
    queryLogs cc none filters = ⟨[], true, none⟩
    ∧ queryLogs cc (some []) filters
        = ⟨[], false, some "Could not read or parse the audit log."⟩ := ⟨rfl, rfl⟩

/-- C3: after N sequential successful `appendLog` calls starting from an
empty (absent) log, `queryLogs` with the empty filter reports
`isValid = true` and returns exactly N entries; and if any historical
record's content is replaced by different content while keeping that record's
stored checksum, a subsequent `queryLogs` reports `isValid = false` and
returns zero entries.  The "successful" of the claim is the hypothesis
`appendAllOk`: every call in the sequence returned success (an append fails,
leaving the file untouched, when the entry misses required fields or when the
previous line is at least 1024 bytes and `getLastLine`'s tail read truncates
it).  The tamper half is stated, as the hash-chain design intends, under the
collision-freedom hypothesis that the digest of the tampered content differs
from the stored checksum. -/
theorem c3_chain_integrity (cc : String → String)
    (inputs : List (String × AuditEntry))
    (hok : appendAllOk cc inputs none = true) :
    (queryLogs cc (appendAll cc inputs none) []).isValid = true
    ∧ (queryLogs cc (appendAll cc inputs none) []).logs.length = inputs.length
    ∧ (∀ logs i r c2, appendAll cc inputs none = some logs →
        logs[i]? = some r → c2 ≠ r.content →
        cc (serializeContent c2) ≠ r.checksum →
        queryLogs cc (some (logs.set i ⟨c2, r.checksum⟩)) []
          = ⟨[], false, some "Log tampering detected!"⟩) := by
  have hbase : validateChain cc GENESIS_HASH ((none : Option (List LogRecord)).getD [])
      = true := rfl
  have hchain := appendAll_chain cc inputs none hok hbase
  have hlen := hchain.2
  simp only [Option.getD_none, List.length_nil, Nat.zero_add] at hlen
  refine ⟨?_, ?_, ?_⟩
  · cases happ : appendAll cc inputs none with
    | none => rfl
    | some logs =>
        rw [happ] at hchain hlen
        simp only [Option.getD_some] at hchain hlen
        cases hlogs : logs with
        | nil =>
            exfalso
            subst hlogs
            simp only [List.length_nil] at hlen
            have hz : inputs = [] := List.eq_nil_of_length_eq_zero hlen.symm
            subst hz
            exact Option.noConfusion happ
        | cons r0 rest =>
            subst hlogs
            simp [queryLogs, hchain.1]
  · cases happ : appendAll cc inputs none with
    | none =>
        rw [happ] at hlen
        simp only [Option.getD_none, List.length_nil] at hlen
        simp only [queryLogs, List.length_nil]
        omega
    | some logs =>
        rw [happ] at hchain hlen
        simp only [Option.getD_some] at hchain hlen
        cases hlogs : logs with
        | nil =>
            exfalso
            subst hlogs
            simp only [List.length_nil] at hlen
            have hz : inputs = [] := List.eq_nil_of_length_eq_zero hlen.symm
            subst hz
            exact Option.noConfusion happ
        | cons r0 rest =>
            subst hlogs
            have hfilter : (r0 :: rest).filter (matchesFilters []) = r0 :: rest :=
              List.filter_eq_self.mpr (fun a _ => rfl)
            simp only [queryLogs, List.isEmpty_cons, Bool.false_eq_true, if_false,
              hchain.1, if_true, hfilter]
            exact hlen
  · intro logs i r c2 happ hget _ hne
    rw [happ] at hchain
    simp only [Option.getD_some] at hchain
    have hfalse := validateChain_set_false cc c2 logs i r GENESIS_HASH
      hchain.1 hget hne
    have hne2 : logs.set i ⟨c2, r.checksum⟩ ≠ [] := by
      intro hnil
      obtain ⟨hlt, _⟩ := List.getElem?_eq_some_iff.mp hget
      have hls := List.length_set logs i (⟨c2, r.checksum⟩ : LogRecord)
      rw [hnil] at hls
      simp only [List.length_nil] at hls
      omega
    simp only [queryLogs]
    rw [if_neg (by simpa [List.isEmpty_eq_true] using hne2),
      if_neg (by simp [hfalse])]

/-- C3 witness: two concrete appends with the injective digest stand-in
`hashId` (both under the 1024-byte line limit, so `appendAllOk` computes to
true), then a mutation of the first record's `userId` field (checksum kept):
validity, the entry count, and the tamper rejection, all computed. -/
theorem c3_witness :
    appendAllOk hashId inputs0 none = true
    ∧ (queryLogs hashId (appendAll hashId inputs0 none) []).isValid = true
    ∧ (queryLogs hashId (appendAll hashId inputs0 none) []).logs.length = 2
    ∧ queryLogs hashId
        (some (((appendAll hashId inputs0 none).getD []).set 0
          ⟨mutContent0,
            ((((appendAll hashId inputs0 none).getD [])[0]?).map
              LogRecord.checksum).getD ""⟩)) []
      = ⟨[], false, some "Log tampering detected!"⟩ := by
  have h := c3_chain_integrity hashId inputs0 (by decide)
  refine ⟨by decide, h.1, h.2.1, ?_⟩
  exact h.2.2 ((appendAll hashId inputs0 none).getD []) 0 _ mutContent0
    rfl rfl (by decide) (by decide)

/-- C4: on an initialized vault (16-byte salt from `init`, 12-byte fresh iv,
16-byte GCM tag), `store(K, V)` succeeds and a subsequent `retrieve(K)`
succeeds and returns exactly V.  AES-256-GCM is a parameter of the embedding,
so the AEAD round-trip (decrypting what was encrypted under the same key and
iv, with the produced tag, yields the plaintext) is the point-wise hypothesis
`hdec` on the cipher pair; the storage path — payload assembly
`salt ∥ iv ∥ tag ∥ ciphertext`, hex encoding/decoding, and the slice offsets
16/28/44 of `retrieve` — is computed concretely. -/
theorem c4_store_retrieve_roundtrip
    (encryptFn : List Byte → List Byte → String → Option (List Byte × List Byte))
    (decryptFn : List Byte → List Byte → List Byte → List Byte → Option String)
    (iv : List Byte) (K V : String) (st : VaultState) (ct tag : List Byte)
    (hinit : st.inited = true) (hsalt : st.salt.length = 16)
    (hiv : iv.length = 12) (htag : tag.length = 16)
    (henc : encryptFn st.derivedKey iv V = some (ct, tag))
    (hdec : decryptFn st.derivedKey iv tag ct = some V) :
    (Vault.store encryptFn iv K V st).1 = ⟨true, none⟩
    ∧ (Vault.retrieve decryptFn K (Vault.store encryptFn iv K V st).2).1
        = ⟨true, some V, none⟩ := by
  have hstore : Vault.store encryptFn iv K V st
      = (⟨true, none⟩,
         { st with
            store := mapSet st.store K (hexEncode (st.salt ++ iv ++ tag ++ ct)) }) := by
    simp only [Vault.store, hinit, Bool.not_true, Bool.false_eq_true, if_false, henc]
  refine ⟨by rw [hstore], ?_⟩
  rw [hstore]
  have hget : mapGet (mapSet st.store K (hexEncode (st.salt ++ iv ++ tag ++ ct))) K
      = some (hexEncode (st.salt ++ iv ++ tag ++ ct)) := mapGet_set_self _ _ _
  have hslices := payload_slices st.salt iv tag ct hsalt hiv htag
  simp only [Vault.retrieve, hinit, Bool.not_true, Bool.false_eq_true, if_false,
    hget, hexDecode_hexEncode, hslices.1, hslices.2.1, hslices.2.2, hdec]

/-- C4 witness: the round-trip theorem instantiated on the concrete vault
`vault1` with the cipher stand-ins `encConst`/`decConst` at the plaintext
`"hello secret"` under key `"api-key"`. -/
theorem c4_witness :
    (Vault.store encConst iv0 "api-key" "hello secret" vault1).1 = ⟨true, none⟩
    ∧ (Vault.retrieve decConst "api-key"
        (Vault.store encConst iv0 "api-key" "hello secret" vault1).2).1
      = ⟨true, some "hello secret", none⟩ :=
  c4_store_retrieve_roundtrip encConst decConst iv0 "api-key" "hello secret"
    vault1 ("hello secret".data.map (fun (c : Char) => Fin.ofNat' 256 c.toNat))
    (List.replicate 16 0) rfl (by decide) (by decide) (by decide) rfl rfl

/-- C6: one-shot token consumption.  If `checkApprovalStatus` returns status
APPROVED (which is exactly when it mints a token), the request is deleted
from the store; after any further sequence of workflow operations that does
not create a fresh request under the same id, the id is still absent, and
every subsequent `checkApprovalStatus` on it returns the NOT_FOUND failure
and leaves the store unchanged. -/
theorem c6_one_shot_token (hm : String → String → String) (secret : String)
    (n : Nat) (id : String) (st : ReqMap) (ops : List WfOp)
    (happr : (checkApprovalStatus hm secret n id st).1.status = "APPROVED")
    (hops : (ops.all fun op => !(isCreateFor id op)) = true) :
    mapGet (runOps hm secret ops ((checkApprovalStatus hm secret n id st).2)) id
        = none
    ∧ ∀ n2, checkApprovalStatus hm secret n2 id
          (runOps hm secret ops ((checkApprovalStatus hm secret n id st).2))
        = (⟨"NOT_FOUND", none, some "Request not found."⟩,
           runOps hm secret ops ((checkApprovalStatus hm secret n id st).2)) := by
  have hdel : mapGet ((checkApprovalStatus hm secret n id st).2) id = none := by
    cases hget : mapGet st id with
    | none =>
        rw [checkApprovalStatus_notfound hm secret n id st hget] at happr
        have h2 : ("NOT_FOUND" : String) = "APPROVED" := happr
        exact absurd h2 (by decide)
    | some q =>
        by_cases hexp : q.expiresAt ≤ n ∧ q.status = "PENDING"
        · exfalso
          simp only [checkApprovalStatus, hget, if_pos hexp] at happr
          have hns : ¬(({ q with status := "EXPIRED" } : ApprovalRequest).status
              = "APPROVED") :=
            fun hc => absurd hc (by exact (by decide : ¬("EXPIRED" = "APPROVED")))
          rw [if_neg hns] at happr
          exact hns happr
        · by_cases happ2 : q.status = "APPROVED"
          · rw [(congrArg Prod.snd
              (checkApprovalStatus_approved hm secret n id st q hget happ2))]
            exact mapGet_delete_self st id
          · exfalso
            simp only [checkApprovalStatus, hget, if_neg hexp, if_neg happ2] at happr
            exact happ2 happr
  have hnone := runOps_get_none hm secret ops _ id hdel hops
  exact ⟨hnone, fun n2 => checkApprovalStatus_notfound hm secret n2 id _ hnone⟩

/-- C6 witness: the one-shot theorem instantiated on the concrete APPROVED
request `reqApproved`: the first check at t=0 mints the token and consumes
the request; after an interleaved `applyApproval` call, a second check at
t=99 returns NOT_FOUND. -/
theorem c6_witness :
    mapGet (runOps hmacConcat "sec" [WfOp.applyOp 7 "ab12" "dave"]
        ((checkApprovalStatus hmacConcat "sec" 0 "ab12" reqMapApproved).2)) "ab12"
      = none
    ∧ checkApprovalStatus hmacConcat "sec" 99 "ab12"
        (runOps hmacConcat "sec" [WfOp.applyOp 7 "ab12" "dave"]
          ((checkApprovalStatus hmacConcat "sec" 0 "ab12" reqMapApproved).2))
      = (⟨"NOT_FOUND", none, some "Request not found."⟩,
         runOps hmacConcat "sec" [WfOp.applyOp 7 "ab12" "dave"]
          ((checkApprovalStatus hmacConcat "sec" 0 "ab12" reqMapApproved).2)) := by
  have h := c6_one_shot_token hmacConcat "sec" 0 "ab12" reqMapApproved
    [WfOp.applyOp 7 "ab12" "dave"] (by decide) (by decide)
  exact ⟨h.1, h.2 99⟩

/-- C7 counterexample: the claim says the JSON payload of a minted token
contains the fields `subject`, `requestId`, `action` and `expiry`.  The
minted payload of the concrete APPROVED request `reqApproved` at t=0 is
exactly `{"sub":"alice","req":"ab12","act":"ACCESS_VAULT_ITEM","exp":300000}`:
its keys are the abbreviated `sub`, `req`, `act`, `exp`, and none of the four
claimed field names occurs among them. -/
theorem c7_counterexample :
    (checkApprovalStatus hmacConcat "sec" 0 "ab12" reqMapApproved).1.token
      = some (base64urlEncode (stringBytes (serializeTokenPayload payload0))
          ++ "." ++ hmacConcat "sec" (serializeTokenPayload payload0))
    ∧ serializeTokenPayload payload0
      = "\x7b\"sub\":\"alice\",\"req\":\"ab12\",\"act\":\"ACCESS_VAULT_ITEM\",\"exp\":300000\x7d"
    ∧ (tokenPayloadPairs payload0).map Prod.fst = ["sub", "req", "act", "exp"]
    ∧ "subject" ∉ (tokenPayloadPairs payload0).map Prod.fst
    ∧ "requestId" ∉ (tokenPayloadPairs payload0).map Prod.fst
    ∧ "action" ∉ (tokenPayloadPairs payload0).map Prod.fst
    ∧ "expiry" ∉ (tokenPayloadPairs payload0).map Prod.fst := by
  refine ⟨rfl, rfl, rfl, by decide, by decide, by decide, by decide⟩

/-- C7 (amended): every token minted by `checkApprovalStatus` is
`base64url(JSON payload) + "." + hmacHexSha256(secret, payload)` with the MAC
computed over the raw pre-encoding payload string, and the payload's JSON
keys are, in order, `sub` (the subject/requester id), `req` (the request id),
`act` (the action) and `exp` (the token expiry, `now + 300000` epoch
milliseconds) — abbreviated names, not `subject`/`requestId`/`action`/
`expiry`. -/
theorem c7_token_format_amended (hm : String → String → String)
    (secret : String) (n : Nat) (id : String) (st : ReqMap)
    (r : ApprovalRequest) (hget : mapGet st id = some r)
    (hst : r.status = "APPROVED") :
    (checkApprovalStatus hm secret n id st).1.token
      = some (base64urlEncode (stringBytes (serializeTokenPayload
            ⟨r.requesterId, id, r.action, n + 300 * 1000⟩)) ++ "."
          ++ hm secret (serializeTokenPayload
            ⟨r.requesterId, id, r.action, n + 300 * 1000⟩))
    ∧ (tokenPayloadPairs ⟨r.requesterId, id, r.action, n + 300 * 1000⟩).map
        Prod.fst = ["sub", "req", "act", "exp"] := by
  refine ⟨?_, rfl⟩
  rw [checkApprovalStatus_approved hm secret n id st r hget hst]

/-- C7 witness: the amended token-format theorem instantiated on the concrete
APPROVED request `reqApproved` at t=0. -/
theorem c7_witness :
    (checkApprovalStatus hmacConcat "sec" 0 "ab12" reqMapApproved).1.token
      = some (base64urlEncode (stringBytes (serializeTokenPayload
            ⟨"alice", "ab12", "ACCESS_VAULT_ITEM", 0 + 300 * 1000⟩)) ++ "."
          ++ hmacConcat "sec" (serializeTokenPayload
            ⟨"alice", "ab12", "ACCESS_VAULT_ITEM", 0 + 300 * 1000⟩))
    ∧ (tokenPayloadPairs ⟨"alice", "ab12", "ACCESS_VAULT_ITEM", 0 + 300 * 1000⟩).map
        Prod.fst = ["sub", "req", "act", "exp"] :=
  c7_token_format_amended hmacConcat "sec" 0 "ab12" reqMapApproved reqApproved
    (by decide) rfl

/-- C8 counterexample: the claim says every public operation — explicitly
including `vault.init` — returns a structured success/failure result and
never throws.  `Vault.init` instead `throw`s raw `Error`s (modelled as
`Except.error`): on a password shorter than 12 characters, and on a second
initialization. -/
theorem c8_counterexample :
    Vault.init kdfConst [] "short" vault0
      = Except.error "Master password must be a string of at least 12 characters."
    ∧ Vault.init kdfConst [] "a-long-enough-password"
        { vault0 with inited := true }
      = Except.error "Vault has already been initialized." := ⟨rfl, rfl⟩

/-- C8 (amended): vault store/retrieve, audit append/query and approval
create/apply/check all return a structured success/failure result for every
input (every failure path carries an error message and every success path
carries none); `vault.init`, however, throws a raw `Error` exactly when the
vault is already set up or the password is shorter than 12 characters, and
only completes without throwing otherwise. -/
theorem c8_structured_results
    (kdf : String → List Byte → List Byte)
    (enc : List Byte → List Byte → String → Option (List Byte × List Byte))
    (dec : List Byte → List Byte → List Byte → List Byte → Option String)
    (cc : String → String) (hm : String → String → String) (secret : String) :
    (∀ salt pw st, (∃ e, Vault.init kdf salt pw st = Except.error e)
        ↔ (st.inited = true ∨ pw.length < 12))
    ∧ (∀ iv k v st,
        ((Vault.store enc iv k v st).1.success = true
            ∧ (Vault.store enc iv k v st).1.error = none)
        ∨ ((Vault.store enc iv k v st).1.success = false
            ∧ (Vault.store enc iv k v st).1.error ≠ none))
    ∧ (∀ k st,
        ((Vault.retrieve dec k st).1.success = true
            ∧ ((Vault.retrieve dec k st).1.data).isSome = true
            ∧ (Vault.retrieve dec k st).1.error = none)
        ∨ ((Vault.retrieve dec k st).1.success = false
            ∧ (Vault.retrieve dec k st).1.error ≠ none))
    ∧ (∀ t e file,
        ((appendLog cc t e file).1.success = true
            ∧ (appendLog cc t e file).1.error = none)
        ∨ ((appendLog cc t e file).1.success = false
            ∧ (appendLog cc t e file).1.error ≠ none))
    ∧ (∀ file filters,
        ((queryLogs cc file filters).isValid = true
            ∧ (queryLogs cc file filters).error = none)
        ∨ ((queryLogs cc file filters).isValid = false
            ∧ (queryLogs cc file filters).logs = []
            ∧ (queryLogs cc file filters).error ≠ none))
    ∧ (∀ n f rq a d m pa ttl st,
        ((createRequest n f rq a d m pa ttl st).1.success = true
            ∧ ((createRequest n f rq a d m pa ttl st).1.requestId).isSome = true
            ∧ (createRequest n f rq a d m pa ttl st).1.error = none)
        ∨ ((createRequest n f rq a d m pa ttl st).1.success = false
            ∧ (createRequest n f rq a d m pa ttl st).1.error ≠ none))
    ∧ (∀ n rid aid st,
        ((applyApproval n rid aid st).1.success = true
            ∧ ((applyApproval n rid aid st).1.status).isSome = true
            ∧ (applyApproval n rid aid st).1.error = none)
        ∨ ((applyApproval n rid aid st).1.success = false
            ∧ (applyApproval n rid aid st).1.error ≠ none))
    ∧ (∀ n rid st,
        ((checkApprovalStatus hm secret n rid st).1.status = "NOT_FOUND"
            ∧ (checkApprovalStatus hm secret n rid st).1.error ≠ none)
        ∨ (checkApprovalStatus hm secret n rid st).1.error = none) := by
  refine ⟨?_, ?_, ?_, ?_, ?_, ?_, ?_, ?_⟩
  · intro salt pw st
    constructor
    · rintro ⟨e, he⟩
      unfold Vault.init at he
      by_cases h1 : st.inited = true
      · exact Or.inl h1
      · rw [if_neg h1] at he
        by_cases h2 : pw.length < 12
        · exact Or.inr h2
        · rw [if_neg h2] at he
          exact Except.noConfusion he
    · intro h
      unfold Vault.init
      by_cases h1 : st.inited = true
      · rw [if_pos h1]
        exact ⟨_, rfl⟩
      · rw [if_neg h1]
        cases h with
        | inl hc => exact absurd hc h1
        | inr hlen =>
            rw [if_pos hlen]
            exact ⟨_, rfl⟩
  · intro iv k v st
    unfold Vault.store
    by_cases hin : (!st.inited) = true
    · rw [if_pos hin]
      exact Or.inr ⟨rfl, by simp⟩
    · rw [if_neg hin]
      cases henc : enc st.derivedKey iv v with
      | none =>
          simp only [henc]
          exact Or.inr ⟨by trivial, by simp⟩
      | some p =>
          obtain ⟨c, t⟩ := p
          simp only [henc]
          exact Or.inl ⟨by trivial, by trivial⟩
  · intro k st
    unfold Vault.retrieve
    by_cases hin : (!st.inited) = true
    · rw [if_pos hin]
      exact Or.inr ⟨rfl, by simp⟩
    · rw [if_neg hin]
      cases hget : mapGet st.store k with
      | none =>
          simp only [hget]
          exact Or.inr ⟨by trivial, by simp⟩
      | some payload =>
          simp only [hget]
          cases hdec : dec st.derivedKey
              (((hexDecode payload).drop SALT_LENGTH).take IV_LENGTH)
              (((hexDecode payload).drop (SALT_LENGTH + IV_LENGTH)).take AUTH_TAG_LENGTH)
              ((hexDecode payload).drop (SALT_LENGTH + IV_LENGTH + AUTH_TAG_LENGTH)) with
          | some v =>
              simp only [hdec]
              exact Or.inl ⟨by trivial, by trivial, by trivial⟩
          | none =>
              simp only [hdec]
              exact Or.inr ⟨by trivial, by simp⟩
  · intro t e file
    by_cases hc : e.userId = "" ∨ e.action = "" ∨ e.target = "" ∨ e.outcome = ""
    · simp only [appendLog, if_pos hc]
      exact Or.inr ⟨by trivial, by simp⟩
    · cases hlast : (file.getD []).getLast? with
      | none =>
          simp only [appendLog, if_neg hc, hlast]
          exact Or.inl ⟨by trivial, by trivial⟩
      | some r =>
          by_cases hlong : 1024 ≤ (serializeRecord r).length
          · simp only [appendLog, if_neg hc, hlast, if_pos hlong]
            exact Or.inr ⟨by trivial, by simp⟩
          · simp only [appendLog, if_neg hc, hlast, if_neg hlong]
            exact Or.inl ⟨by trivial, by trivial⟩
  · intro file filters
    cases file with
    | none => exact Or.inl ⟨rfl, rfl⟩
    | some logs =>
        by_cases hemp : logs.isEmpty = true
        · simp only [queryLogs, if_pos hemp]
          exact Or.inr ⟨by trivial, by trivial, by simp⟩
        · by_cases hval : validateChain cc GENESIS_HASH logs = true
          · simp only [queryLogs, if_neg hemp, if_pos hval]
            exact Or.inl ⟨by trivial, by trivial⟩
          · simp only [queryLogs, if_neg hemp, if_neg hval]
            exact Or.inr ⟨by trivial, by trivial, by simp⟩
  · intro n f rq a d m pa ttl st
    unfold createRequest
    by_cases hc : rq = "" ∨ a = "" ∨ pa.length < m
    · rw [if_pos hc]
      exact Or.inr ⟨rfl, by simp⟩
    · rw [if_neg hc]
      exact Or.inl ⟨rfl, rfl, rfl⟩
  · intro n rid aid st
    cases hget : mapGet st rid with
    | none =>
        simp only [applyApproval, hget]
        exact Or.inr ⟨by trivial, by simp⟩
    | some q =>
        by_cases h1 : q.expiresAt ≤ n
        · simp only [applyApproval, hget, if_pos h1]
          exact Or.inr ⟨by trivial, by simp⟩
        · by_cases h2 : q.status ≠ "PENDING"
          · simp only [applyApproval, hget, if_neg h1, if_pos h2]
            exact Or.inr ⟨by trivial, by simp⟩
          · by_cases h3 : (!(q.potentialApprovers.contains aid)) = true
            · simp only [applyApproval, hget, if_neg h1, if_neg h2, if_pos h3]
              exact Or.inr ⟨by trivial, by simp⟩
            · by_cases h4 : (q.approvals.any fun a2 => a2.approverId == aid) = true
              · simp only [applyApproval, hget, if_neg h1, if_neg h2, if_neg h3,
                  if_pos h4]
                exact Or.inr ⟨by trivial, by simp⟩
              · simp only [applyApproval, hget, if_neg h1, if_neg h2, if_neg h3,
                  if_neg h4]
                exact Or.inl ⟨by trivial, by trivial, by trivial⟩
  · intro n rid st
    cases hget : mapGet st rid with
    | none =>
        simp only [checkApprovalStatus, hget]
        exact Or.inl ⟨by trivial, by simp⟩
    | some q =>
        by_cases hexp : q.expiresAt ≤ n ∧ q.status = "PENDING"
        · simp only [checkApprovalStatus, hget, if_pos hexp]
          have hns : ¬(({ q with status := "EXPIRED" } : ApprovalRequest).status
              = "APPROVED") :=
            fun hc => absurd hc (by exact (by decide : ¬("EXPIRED" = "APPROVED")))
          rw [if_neg hns]
          exact Or.inr (by trivial)
        · simp only [checkApprovalStatus, hget, if_neg hexp]
          by_cases happ : q.status = "APPROVED"
          · rw [if_pos happ]
            exact Or.inr (by trivial)
          · rw [if_neg happ]
            exact Or.inr (by trivial)

/-- C9: `store` is atomic on error — whenever it returns a failure (vault not
set up, or the cipher throwing inside the try-block before any `Map.set`),
the key/value map and the whole vault state are exactly as before the call;
and `retrieve` never modifies the state for any input. -/
theorem c9_store_atomic_retrieve_pure
    (enc : List Byte → List Byte → String → Option (List Byte × List Byte))
    (dec : List Byte → List Byte → List Byte → List Byte → Option String) :
    (∀ iv k v st, (Vault.store enc iv k v st).1.success = false →
        (Vault.store enc iv k v st).2 = st)
    ∧ (∀ k st, (Vault.retrieve dec k st).2 = st) := by
  constructor
  · intro iv k v st hfail
    unfold Vault.store at hfail ⊢
    by_cases hin : (!st.inited) = true
    · rw [if_pos hin]
    · rw [if_neg hin] at hfail ⊢
      cases henc : enc st.derivedKey iv v with
      | none => simp only [henc]
      | some p =>
          obtain ⟨c, t⟩ := p
          rw [henc] at hfail
          exact absurd hfail (by simp)
  · intro k st
    unfold Vault.retrieve
    by_cases hin : (!st.inited) = true
    · rw [if_pos hin]
    · rw [if_neg hin]
      cases hget : mapGet st.store k with
      | none => simp only [hget]
      | some payload =>
          simp only [hget]
          cases hdec : dec st.derivedKey
              (((hexDecode payload).drop SALT_LENGTH).take IV_LENGTH)
              (((hexDecode payload).drop (SALT_LENGTH + IV_LENGTH)).take AUTH_TAG_LENGTH)
              ((hexDecode payload).drop (SALT_LENGTH + IV_LENGTH + AUTH_TAG_LENGTH)) with
          | some v => simp only [hdec]
          | none => simp only [hdec]

/-- C9 witness: a failing `store` on the never-set-up vault `vault0` leaves
the state untouched, and `retrieve` leaves it untouched as well. -/
theorem c9_witness :
    (Vault.store encFail [] "k" "v" vault0).1.success = false
    ∧ (Vault.store encFail [] "k" "v" vault0).2 = vault0
    ∧ (Vault.retrieve decFail "k" vault0).2 = vault0 :=
  ⟨rfl, (c9_store_atomic_retrieve_pure encFail decFail).1 [] "k" "v" vault0 rfl,
    (c9_store_atomic_retrieve_pure encFail decFail).2 "k" vault0⟩

/-- C10: once a request is EXPIRED it is never deleted — after any further
sequence of workflow operations not creating a fresh request under its id, it
is still stored unchanged, and every `checkApprovalStatus` on its id returns
status EXPIRED with no token (not NOT_FOUND) and leaves the store unchanged;
moreover the only operation that ever deletes a stored id is a
`checkApprovalStatus` on that id that reports APPROVED and mints a token. -/
theorem c10_expired_retained (hm : String → String → String) (secret : String)
    (st : ReqMap) (id : String) (r : ApprovalRequest) (ops : List WfOp)
    (hget : mapGet st id = some r) (hst : r.status = "EXPIRED")
    (hops : (ops.all fun op => !(isCreateFor id op)) = true) :
    mapGet (runOps hm secret ops st) id = some r
    ∧ (∀ n2, checkApprovalStatus hm secret n2 id (runOps hm secret ops st)
        = (⟨"EXPIRED", none, none⟩, runOps hm secret ops st))
    ∧ (∀ op st0, mapGet st0 id ≠ none →
        mapGet (stepOp hm secret op st0) id = none →
        ∃ n2, op = WfOp.check n2 id
          ∧ (checkApprovalStatus hm secret n2 id st0).1.status = "APPROVED"
          ∧ ((checkApprovalStatus hm secret n2 id st0).1.token).isSome = true) := by
  have hrun := runOps_get_expired hm secret ops st id r hget hst hops
  exact ⟨hrun,
    fun n2 => checkApprovalStatus_expired hm secret n2 id _ r hrun hst,
    fun op st0 hsome hdel => stepOp_delete_only_check hm secret op id st0 hsome hdel⟩

/-- C10 witness: the retention theorem instantiated on the concrete EXPIRED
request `reqExpired`, with an interleaved late `applyApproval` call: the
request is still stored and a check at t=99 reports EXPIRED, not NOT_FOUND. -/
theorem c10_witness :
    mapGet (runOps hmacConcat "sec" [WfOp.applyOp 9 "cd34" "bob"] reqMapExpired)
        "cd34" = some reqExpired
    ∧ checkApprovalStatus hmacConcat "sec" 99 "cd34"
        (runOps hmacConcat "sec" [WfOp.applyOp 9 "cd34" "bob"] reqMapExpired)
      = (⟨"EXPIRED", none, none⟩,
         runOps hmacConcat "sec" [WfOp.applyOp 9 "cd34" "bob"] reqMapExpired) := by
  have h := c10_expired_retained hmacConcat "sec" reqMapExpired "cd34" reqExpired
    [WfOp.applyOp 9 "cd34" "bob"] (by decide) rfl (by decide)
  exact ⟨h.1, h.2.1 99⟩

/-- C5 witness: the amended theorem evaluated at the injective digest
stand-in: an absent file is the valid zero-entry state. -/
theorem c5_witness :
    queryLogs hashId none [] = ⟨[], true, none⟩
    ∧ queryLogs hashId (some []) []
        = ⟨[], false, some "Could not read or parse the audit log."⟩ :=
  ⟨(c5_absent_vs_empty hashId []).1, (c5_absent_vs_empty hashId []).2⟩

/-- C8 witness: the amended theorem instantiated at a concrete short
password, producing the thrown error of `Vault.init`. -/
theorem c8_witness :
    ∃ e, Vault.init kdfConst [] "short" vault0 = Except.error e :=
  ((c8_structured_results kdfConst encFail decFail hashId hmacConcat "sec").1
    [] "short" vault0).mpr (Or.inr (by decide))
